import Mathlib

/-
Verification development for the fast-pbf-query-server repository.

The repository ships a single Rust source file, src/main.rs, containing the
WebSocket handler (ws_handler) and the startup logic (main).  The geographic
index lives in a `geo` module that is declared (`mod geo;`) but whose source
is not part of the repository snapshot; its behaviour (GeoIndex, find, build)
is therefore modelled from the specification.

Coordinates are modelled as rationals; latitude plays the role of the y axis
and longitude the role of the x axis.
-/

/-- Modelled from the spec (the `geo` module is absent from the sources):
a GeoPoint is a (latitude, longitude) pair in degrees. -/
structure GeoPoint where
  lat : ℚ
  lon : ℚ
deriving DecidableEq

/-- Modelled from the spec: the precomputed axis-aligned bounding box of a
boundary (min/max lat/lon). -/
structure BBox where
  minLat : ℚ
  maxLat : ℚ
  minLon : ℚ
  maxLon : ℚ
deriving DecidableEq

/-- Bounding-box membership test (closed box). -/
def BBox.contains (bb : BBox) (p : GeoPoint) : Bool :=
  decide (bb.minLat ≤ p.lat) && decide (p.lat ≤ bb.maxLat) &&
    decide (bb.minLon ≤ p.lon) && decide (p.lon ≤ bb.maxLon)

/-- Modelled from the spec: an assembled Boundary carries a reference string,
an outer ring, zero or more inner rings (holes), a precomputed bounding box
and a precomputed signed area. -/
structure Boundary where
  reference : String
  outer : List GeoPoint
  holes : List (List GeoPoint)
  bbox : BBox
  area : ℚ
deriving DecidableEq

/-- Does the horizontal ray from `p` towards increasing longitude cross the
open-at-the-top edge from `a` to `b`?  Standard even-odd crossing test. -/
def crossesRight (p a b : GeoPoint) : Bool :=
  (decide (p.lat < a.lat) != decide (p.lat < b.lat)) &&
    decide (p.lon < a.lon + (b.lon - a.lon) * (p.lat - a.lat) / (b.lat - a.lat))

/-- The edges of a closed ring: consecutive vertices, wrapping around. -/
def ringEdges (ring : List GeoPoint) : List (GeoPoint × GeoPoint) :=
  ring.zip (ring.rotate 1)

/-- Modelled from the spec: exact point-in-polygon by ray casting (even-odd
rule) against a single ring. -/
def inRing (p : GeoPoint) (ring : List GeoPoint) : Bool :=
  (ringEdges ring).countP (fun e => crossesRight p e.1 e.2) % 2 == 1

/-- Modelled from the spec: a boundary truly contains a point when the point
is inside the outer ring and inside none of the holes. -/
def Boundary.containsPoint (b : Boundary) (p : GeoPoint) : Bool :=
  inRing p b.outer && b.holes.all (fun h => !(inRing p h))

/-- Modelled from the spec: the spatial index is an immutable snapshot of the
assembled boundaries, in insertion order. -/
structure GeoIndex where
  boundaries : List Boundary
deriving DecidableEq

/-- Modelled from the spec: candidate retrieval by bounding-box pruning. -/
def GeoIndex.candidates (idx : GeoIndex) (p : GeoPoint) : List Boundary :=
  idx.boundaries.filter (fun b => b.bbox.contains p)

/-- Keep the boundary with the smallest absolute area; on a tie the earlier
boundary (the current best) wins. -/
def pickSmallest (l : List Boundary) : Option Boundary :=
  l.foldl
    (fun best b =>
      match best with
      | none => some b
      | some c => if |b.area| < |c.area| then some b else some c)
    none

/-- Modelled from the spec: `find` retrieves the candidates whose bounding
box contains the point, filters them by exact containment and returns the
reference of the smallest-area survivor (insertion order breaks ties). -/
def GeoIndex.find (idx : GeoIndex) (lat lon : ℚ) : Option String :=
  let p : GeoPoint := ⟨lat, lon⟩
  (pickSmallest ((idx.candidates p).filter (fun b => b.containsPoint p))).map
    Boundary.reference

/-- Modelled from the spec: the stateful view of a query.  A query execution
receives the shared index state and hands it back together with the result;
the spec requires the hand-back to be the unchanged state (pure read). -/
def GeoIndex.findSt (idx : GeoIndex) (lat lon : ℚ) : Option String × GeoIndex :=
  (idx.find lat lon, idx)

/- ### The WebSocket handler (src/main.rs, ws_handler) -/

/-- The inbound query shape (struct QueryParams in src/main.rs). -/
structure QueryParams where
  latitude : ℚ
  longitude : ℚ
deriving DecidableEq

/-- The payload of a successful response (struct DataResponse). -/
structure DataResponse where
  wikipedia : String
deriving DecidableEq

/-- The outbound response shape (struct Response in src/main.rs); an Option
field that is `none` is skipped during serialization, so `isSome` models
field presence in the emitted JSON object. -/
structure Response where
  success : Bool
  data : Option DataResponse
  error : Option String
deriving DecidableEq

/-- The response built for a successfully parsed query (src/main.rs lines
66-80). -/
def queryResponse (idx : GeoIndex) (q : QueryParams) : Response :=
  match idx.find q.latitude q.longitude with
  | some w => ⟨true, some ⟨w⟩, none⟩
  | none => ⟨false, none, some "No address found"⟩

/-- The response built when the inbound text fails to parse (src/main.rs
lines 88-93). -/
def invalidQueryResponse (e : String) : Response :=
  ⟨false, none, some ("Invalid query format: " ++ e)⟩

/-- An inbound WebSocket frame: a text frame, or any other frame kind
(binary, ping, pong, close). -/
inductive WsMessage
  | text (s : String)
  | other
deriving DecidableEq

/-- One item yielded by the WebSocket stream: a frame, or a stream error. -/
inductive StreamItem
  | ok (m : WsMessage)
  | err
deriving DecidableEq

/-- Why the handler loop stopped. -/
inductive Termination
  | streamEnded
  | streamErred
  | sendFailed
deriving DecidableEq

/-- The message loop of ws_handler (src/main.rs lines 59-102), as a function
of the inbound stream.  `parse` abstracts serde_json deserialization of
QueryParams; `sendOk k` tells whether the k-th sink.send succeeds;
serialization of a Response is total for this type, so each processed text
frame leads to exactly one send attempt.  The result collects the attempted
sends (response, did the send succeed) and the reason the loop stopped:
reaching the end of the stream, a stream error, or — only in the
successfully-parsed branch — a failed send. -/
def runHandler (idx : GeoIndex) (parse : String → Except String QueryParams)
    (sendOk : Nat → Bool) :
    List StreamItem → Nat → List (Response × Bool) × Termination
  | [], _ => ([], .streamEnded)
  | .err :: _, _ => ([], .streamErred)
  | .ok .other :: rest, n => runHandler idx parse sendOk rest n
  | .ok (.text t) :: rest, n =>
    match parse t with
    | .ok q =>
      let r := queryResponse idx q
      if sendOk n then
        let next := runHandler idx parse sendOk rest (n + 1)
        ((r, true) :: next.1, next.2)
      else
        ([(r, false)], .sendFailed)
    | .error e =>
      let next := runHandler idx parse sendOk rest (n + 1)
      ((invalidQueryResponse e, sendOk n) :: next.1, next.2)

/- ### Startup and the cache path (src/main.rs, main) -/

/-- A filesystem operation performed on the cache path during startup.
`write p` is a direct `std::fs::write` of the encoded index to `p`;
`rename src dst` would be an atomic publish (never performed by this code,
but needed to state the atomic-write-discipline claim). -/
inductive FsOp
  | write (path : String)
  | rename (src : String) (dst : String)
deriving DecidableEq

/-- How startup ends: serving with an index, or a panic that aborts the
process. -/
inductive StartupOutcome
  | started (idx : GeoIndex)
  | panicked (msg : String)
deriving DecidableEq

/-- The cache handling of main (src/main.rs lines 113-140).  `pbfIndex` is
the index `GeoIndex::new()` + `build(&args.pbf)` would produce; `openOk`
tells whether `std::fs::File::open` succeeds on a path; `decodeCache`
abstracts `bincode::deserialize_from` on the opened file; `writeOk` tells
whether `std::fs::write` succeeds.  Returns the outcome together with the
filesystem operations attempted on the cache path. -/
def startup (pbfIndex : GeoIndex) (cache : Option String)
    (openOk : String → Bool) (decodeCache : String → Except String GeoIndex)
    (writeOk : String → Bool) : StartupOutcome × List FsOp :=
  match cache with
  | none => (.started pbfIndex, [])
  | some path =>
    if openOk path then
      match decodeCache path with
      | .ok geo => (.started geo, [])
      | .error e => (.panicked e, [])
    else
      if writeOk path then (.started pbfIndex, [.write path])
      else (.panicked "Unable to write file", [.write path])

/-- Modelled from the spec: the atomic write discipline it prescribes for
`save` — encode to a temporary location distinct from the target, then
publish to the target path in one atomic rename. -/
def AtomicWriteDiscipline (ops : List FsOp) (target : String) : Prop :=
  ∃ tmp, tmp ≠ target ∧ ops = [FsOp.write tmp, FsOp.rename tmp target]

/-- Is the vertex strictly above the query latitude?  The first conjunct of
the crossing test compares this flag at the two endpoints of an edge. -/
def latAbove (p v : GeoPoint) : Bool := decide (p.lat < v.lat)

/-- The well-formedness invariant of the spec: every boundary's precomputed
bounding box contains every vertex of its outer ring. -/
def WellFormed (idx : GeoIndex) : Prop :=
  ∀ b ∈ idx.boundaries, ∀ v ∈ b.outer, b.bbox.contains v = true

instance : DecidablePred WellFormed := fun idx =>
  inferInstanceAs (Decidable (∀ b ∈ idx.boundaries, ∀ v ∈ b.outer, _ = true))

/-- Modelled from the spec's words (4.4 step 3): the boundary `find` must
select — it truly contains the point, has minimal absolute area among all
truly containing boundaries, and every earlier-inserted boundary that truly
contains the point has strictly larger absolute area. -/
def IsMostSpecific (idx : GeoIndex) (p : GeoPoint) (b : Boundary) : Prop :=
  b.containsPoint p = true ∧
  (∀ c ∈ idx.boundaries, c.containsPoint p = true → |b.area| ≤ |c.area|) ∧
  ∃ l1 l2, idx.boundaries = l1 ++ b :: l2 ∧
    ∀ c ∈ l1, c.containsPoint p = true → |b.area| < |c.area|

/- ### Concrete instances used by the closed corollaries -/

/-- A square ring spanning `lo..hi` in both coordinates. -/
def squareRing (lo hi : ℚ) : List GeoPoint :=
  [⟨lo, lo⟩, ⟨lo, hi⟩, ⟨hi, hi⟩, ⟨hi, lo⟩]

/-- A large demo boundary, in the spirit of the spec's end-to-end
scenario 1. -/
def francia : Boundary :=
  { reference := "Francia", outer := squareRing 40 50, holes := [],
    bbox := ⟨40, 50, 40, 50⟩, area := 100 }

/-- A smaller demo boundary nested inside `francia`, carrying a hole. -/
def ringWithHole : Boundary :=
  { reference := "Ring", outer := squareRing 41 49,
    holes := [squareRing 43 47], bbox := ⟨41, 49, 41, 49⟩, area := 48 }

/-- The demo index holding both demo boundaries. -/
def demoIndex : GeoIndex := ⟨[francia, ringWithHole]⟩

/-- An index with no boundaries: every query misses. -/
def emptyIndex : GeoIndex := ⟨[]⟩

/-- A concrete stand-in for serde_json deserialization of QueryParams: one
recognized message text, everything else a parse error. -/
def demoParse : String → Except String QueryParams :=
  fun s =>
    if s = "good" then Except.ok ⟨45, 42⟩
    else Except.error "missing field latitude"

/- ### Parity of edge crossings around a closed ring -/

/-- Along a chain x :: xs ending at y, the number of sign changes of `f`
between consecutive elements has the parity of `f x != f y`. -/
theorem countP_zip_chain_mod_two {α : Type} (f : α → Bool) :
    ∀ (xs : List α) (x y : α),
      ((x :: xs).zip (xs ++ [y])).countP (fun e => f e.1 != f e.2) % 2 =
        (if f x != f y then 1 else 0) := by
  intro xs
  induction xs with
  | nil =>
    intro x y
    cases h : f x != f y <;> simp [List.countP_cons, h]
  | cons z zs ih =>
    intro x y
    have h2 := ih z y
    rw [List.cons_append, List.zip_cons_cons, List.countP_cons]
    cases hx : f x <;> cases hz : f z <;> cases hy : f y <;>
      simp [hx, hz, hy] at h2 ⊢ <;> omega

/-- Around a closed ring (each vertex paired with its cyclic successor), the
number of sign changes of `f` is even. -/
theorem countP_zip_rotate_even {α : Type} (f : α → Bool) (l : List α) :
    (l.zip (l.rotate 1)).countP (fun e => f e.1 != f e.2) % 2 = 0 := by
  cases l with
  | nil => simp
  | cons x xs =>
    have hrot : (x :: xs).rotate 1 = xs ++ [x] := by
      rw [List.rotate_cons_succ, List.rotate_zero]
    rw [hrot, countP_zip_chain_mod_two f xs x x]
    simp

/- ### Geometry of a single crossing -/

/-- Unpacking the first conjunct of the crossing test: the query latitude
lies in the half-open latitude span of the edge. -/
theorem bne_latAbove_cases {pl al bl : ℚ}
    (h : (decide (pl < al) != decide (pl < bl)) = true) :
    (al ≤ pl ∧ pl < bl) ∨ (bl ≤ pl ∧ pl < al) := by
  by_cases h1 : pl < al <;> by_cases h2 : pl < bl <;>
    simp [h1, h2] at h ⊢ <;> linarith

/-- The interpolation parameter of a crossing edge lies in the unit
interval. -/
theorem ratio_bounds {pl al bl : ℚ}
    (h : (al ≤ pl ∧ pl < bl) ∨ (bl ≤ pl ∧ pl < al)) :
    0 ≤ (pl - al) / (bl - al) ∧ (pl - al) / (bl - al) ≤ 1 := by
  rcases h with ⟨h1, h2⟩ | ⟨h1, h2⟩
  · have hd : 0 < bl - al := by linarith
    constructor
    · exact div_nonneg (by linarith) hd.le
    · rw [div_le_one hd]; linarith
  · have hrw : (pl - al) / (bl - al) = (al - pl) / (al - bl) := by
      rw [show al - pl = -(pl - al) by ring, show al - bl = -(bl - al) by ring,
        neg_div_neg_eq]
    have hd : 0 < al - bl := by linarith
    rw [hrw]
    constructor
    · exact div_nonneg (by linarith) hd.le
    · rw [div_le_one hd]; linarith

/-- A convex combination of two values is at most their maximum. -/
theorem convex_le_max {x y t : ℚ} (h0 : 0 ≤ t) (h1 : t ≤ 1) :
    x + (y - x) * t ≤ max x y := by
  rcases le_total x y with h | h
  · rw [max_eq_right h]; nlinarith
  · rw [max_eq_left h]; nlinarith

/-- A convex combination of two values is at least their minimum. -/
theorem min_le_convex {x y t : ℚ} (h0 : 0 ≤ t) (h1 : t ≤ 1) :
    min x y ≤ x + (y - x) * t := by
  rcases le_total x y with h | h
  · rw [min_eq_left h]; nlinarith
  · rw [min_eq_right h]; nlinarith

/-- A crossing edge pins the query point strictly left of the larger
endpoint longitude. -/
theorem crossesRight_lon_upper {p a b : GeoPoint}
    (h : crossesRight p a b = true) : p.lon < max a.lon b.lon := by
  unfold crossesRight at h
  rw [Bool.and_eq_true, decide_eq_true_eq] at h
  obtain ⟨h1, h2⟩ := h
  have hb := ratio_bounds (bne_latAbove_cases h1)
  rw [mul_div_assoc] at h2
  exact lt_of_lt_of_le h2 (convex_le_max hb.1 hb.2)

/-- If the query point is strictly left of both endpoints, the crossing test
reduces to its latitude conjunct. -/
theorem crossesRight_of_lon_lower {p a b : GeoPoint}
    (h1 : (decide (p.lat < a.lat) != decide (p.lat < b.lat)) = true)
    (h2 : p.lon < min a.lon b.lon) : crossesRight p a b = true := by
  unfold crossesRight
  rw [Bool.and_eq_true, decide_eq_true_eq]
  refine ⟨h1, ?_⟩
  have hb := ratio_bounds (bne_latAbove_cases h1)
  rw [mul_div_assoc]
  exact lt_of_lt_of_le h2 (min_le_convex hb.1 hb.2)

/- ### Ray casting never reports a point outside the vertex bounding box -/

/-- Both endpoints of a ring edge are vertices of the ring. -/
theorem edge_mem_ring {ring : List GeoPoint} {a b : GeoPoint}
    (he : (a, b) ∈ ringEdges ring) : a ∈ ring ∧ b ∈ ring := by
  unfold ringEdges at he
  have h := List.of_mem_zip he
  exact ⟨h.1, (List.mem_rotate).mp h.2⟩

/-- If no edge crosses, the even-odd count reports the point outside. -/
theorem inRing_false_of_no_cross {p : GeoPoint} {ring : List GeoPoint}
    (h : ∀ e ∈ ringEdges ring, crossesRight p e.1 e.2 = false) :
    inRing p ring = false := by
  unfold inRing
  have : (ringEdges ring).countP (fun e => crossesRight p e.1 e.2) = 0 := by
    rw [List.countP_eq_zero]
    intro e he
    simp [h e he]
  rw [this]
  rfl

/-- A point at or above every vertex latitude is outside. -/
theorem inRing_lat_upper {p : GeoPoint} {ring : List GeoPoint} {M : ℚ}
    (hM : ∀ v ∈ ring, v.lat ≤ M) (hp : M ≤ p.lat) : inRing p ring = false := by
  apply inRing_false_of_no_cross
  rintro ⟨a, b⟩ he
  obtain ⟨ha, hb⟩ := edge_mem_ring he
  unfold crossesRight
  have h1 : ¬(p.lat < a.lat) := by have := hM a ha; linarith
  have h2 : ¬(p.lat < b.lat) := by have := hM b hb; linarith
  simp [h1, h2]

/-- A point strictly below every vertex latitude is outside. -/
theorem inRing_lat_lower {p : GeoPoint} {ring : List GeoPoint} {m : ℚ}
    (hm : ∀ v ∈ ring, m ≤ v.lat) (hp : p.lat < m) : inRing p ring = false := by
  apply inRing_false_of_no_cross
  rintro ⟨a, b⟩ he
  obtain ⟨ha, hb⟩ := edge_mem_ring he
  unfold crossesRight
  have h1 : p.lat < a.lat := by have := hm a ha; linarith
  have h2 : p.lat < b.lat := by have := hm b hb; linarith
  simp [h1, h2]

/-- A point at or right of every vertex longitude is outside. -/
theorem inRing_lon_upper {p : GeoPoint} {ring : List GeoPoint} {M : ℚ}
    (hM : ∀ v ∈ ring, v.lon ≤ M) (hp : M ≤ p.lon) : inRing p ring = false := by
  apply inRing_false_of_no_cross
  rintro ⟨a, b⟩ he
  obtain ⟨ha, hb⟩ := edge_mem_ring he
  by_contra hc
  rw [Bool.not_eq_false] at hc
  have hlt := crossesRight_lon_upper hc
  have hda : a.lon ≤ M := hM a ha
  have hdb : b.lon ≤ M := hM b hb
  rcases max_cases a.lon b.lon with ⟨hmax, _⟩ | ⟨hmax, _⟩ <;> rw [hmax] at hlt <;>
    linarith

/-- A point strictly left of every vertex longitude is outside: every edge
spanning its latitude crosses the ray, and around a closed ring there is an
even number of such edges. -/
theorem inRing_lon_lower {p : GeoPoint} {ring : List GeoPoint} {m : ℚ}
    (hm : ∀ v ∈ ring, m ≤ v.lon) (hp : p.lon < m) : inRing p ring = false := by
  unfold inRing
  have hcong : (ringEdges ring).countP (fun e => crossesRight p e.1 e.2) =
      (ringEdges ring).countP (fun e => latAbove p e.1 != latAbove p e.2) := by
    apply List.countP_congr
    rintro ⟨a, b⟩ he
    obtain ⟨ha, hb⟩ := edge_mem_ring he
    have hew : crossesRight p a b = (latAbove p a != latAbove p b) := by
      simp only [latAbove]
      cases h1 : (decide (p.lat < a.lat) != decide (p.lat < b.lat)) with
      | false => unfold crossesRight; rw [h1, Bool.false_and]
      | true =>
        apply crossesRight_of_lon_lower h1
        have hda : m ≤ a.lon := hm a ha
        have hdb : m ≤ b.lon := hm b hb
        rcases min_cases a.lon b.lon with ⟨hmin, _⟩ | ⟨hmin, _⟩ <;> rw [hmin] <;>
          linarith
    rw [hew]
  rw [hcong]
  unfold ringEdges
  rw [countP_zip_rotate_even (latAbove p) ring]
  rfl

/-- Bounding-box soundness: a point reported inside a ring lies inside any
box that contains every ring vertex. -/
theorem inRing_mem_bbox {bb : BBox} {ring : List GeoPoint} {p : GeoPoint}
    (h : ∀ v ∈ ring, bb.contains v = true) (hin : inRing p ring = true) :
    bb.contains p = true := by
  have hv : ∀ v ∈ ring, bb.minLat ≤ v.lat ∧ v.lat ≤ bb.maxLat ∧
      bb.minLon ≤ v.lon ∧ v.lon ≤ bb.maxLon := by
    intro v hvmem
    have := h v hvmem
    simp only [BBox.contains, Bool.and_eq_true, decide_eq_true_eq] at this
    exact ⟨this.1.1.1, this.1.1.2, this.1.2, this.2⟩
  have h1 : bb.minLat ≤ p.lat := by
    by_contra hc
    push_neg at hc
    have := inRing_lat_lower (fun v hm => (hv v hm).1) hc
    rw [this] at hin
    exact absurd hin (by decide)
  have h2 : p.lat ≤ bb.maxLat := by
    by_contra hc
    push_neg at hc
    have := inRing_lat_upper (fun v hm => (hv v hm).2.1) hc.le
    rw [this] at hin
    exact absurd hin (by decide)
  have h3 : bb.minLon ≤ p.lon := by
    by_contra hc
    push_neg at hc
    have := inRing_lon_lower (fun v hm => (hv v hm).2.2.1) hc
    rw [this] at hin
    exact absurd hin (by decide)
  have h4 : p.lon ≤ bb.maxLon := by
    by_contra hc
    push_neg at hc
    have := inRing_lon_upper (fun v hm => (hv v hm).2.2.2) hc.le
    rw [this] at hin
    exact absurd hin (by decide)
  simp only [BBox.contains, Bool.and_eq_true, decide_eq_true_eq]
  exact ⟨⟨⟨h1, h2⟩, h3⟩, h4⟩

/-- Exact containment implies bounding-box containment for a well-formed
boundary: the spatial index never prunes a true match. -/
theorem containsPoint_mem_bbox {b : Boundary} {p : GeoPoint}
    (h : ∀ v ∈ b.outer, b.bbox.contains v = true)
    (hc : b.containsPoint p = true) : b.bbox.contains p = true := by
  unfold Boundary.containsPoint at hc
  rw [Bool.and_eq_true] at hc
  exact inRing_mem_bbox h hc.1

/- ### The smallest-area selection -/

/-- The folding step of `pickSmallest` keeps the first boundary attaining
the minimal absolute area. -/
theorem pickSmallest_loop {l : List Boundary} :
    ∀ c : Boundary,
      ∃ b l1 l2,
        l.foldl
            (fun best b =>
              match best with
              | none => some b
              | some c => if |b.area| < |c.area| then some b else some c)
            (some c) = some b ∧
        c :: l = l1 ++ b :: l2 ∧
        (∀ d ∈ c :: l, |b.area| ≤ |d.area|) ∧
        (∀ d ∈ l1, |b.area| < |d.area|) := by
  induction l with
  | nil =>
    intro c
    exact ⟨c, [], [], rfl, rfl, by simp, by simp⟩
  | cons d l ih =>
    intro c
    by_cases hlt : |d.area| < |c.area|
    · obtain ⟨b, l1, l2, hfold, hdecomp, hmin, hstrict⟩ := ih d
      refine ⟨b, c :: l1, l2, ?_, ?_, ?_, ?_⟩
      · simpa [hlt] using hfold
      · rw [List.cons_append, ← hdecomp]
      · intro x hx
        rcases List.mem_cons.mp hx with hx | hx
        · subst hx
          have hbd : |b.area| ≤ |d.area| := hmin d (List.mem_cons_self d l)
          linarith
        · exact hmin x hx
      · intro x hx
        rcases List.mem_cons.mp hx with hx | hx
        · subst hx
          have hbd : |b.area| ≤ |d.area| := hmin d (List.mem_cons_self d l)
          linarith
        · exact hstrict x hx
    · obtain ⟨b, l1, l2, hfold, hdecomp, hmin, hstrict⟩ := ih c
      have hcd : |c.area| ≤ |d.area| := by
        have := not_lt.mp hlt
        linarith
      cases l1 with
      | nil =>
        obtain ⟨hb, hl⟩ : c = b ∧ l = l2 := by simpa using hdecomp
        refine ⟨b, [], d :: l, ?_, by simp [hb], ?_, by simp⟩
        · simpa [hlt] using hfold
        · intro x hx2
          rcases List.mem_cons.mp hx2 with hx | hx
          · exact le_of_eq (by rw [hx, hb])
          · rcases List.mem_cons.mp hx with hx | hx
            · rw [hx, ← hb]
              exact hcd
            · exact hmin x (List.mem_cons_of_mem c hx)
      | cons c0 l1t =>
        obtain ⟨hc0, hl⟩ : c = c0 ∧ l = l1t ++ b :: l2 := by simpa using hdecomp
        refine ⟨b, c :: d :: l1t, l2, ?_, ?_, ?_, ?_⟩
        · simpa [hlt] using hfold
        · simp [hl]
        · intro x hx2
          rcases List.mem_cons.mp hx2 with hx | hx
          · rw [hx]
            exact hmin c (List.mem_cons_self c l)
          · rcases List.mem_cons.mp hx with hx | hx
            · rw [hx]
              have hbc := hmin c (List.mem_cons_self c l)
              linarith
            · exact hmin x (List.mem_cons_of_mem c hx)
        · intro x hx2
          rcases List.mem_cons.mp hx2 with hx | hx
          · rw [hx, hc0]
            exact hstrict c0 (List.mem_cons_self c0 l1t)
          · rcases List.mem_cons.mp hx with hx | hx
            · rw [hx]
              have hbc := hstrict c0 (List.mem_cons_self c0 l1t)
              have hcd0 : |c0.area| ≤ |d.area| := by
                rw [← hc0]
                exact hcd
              linarith
            · exact hstrict x (List.mem_cons_of_mem c0 hx)

/-- What `pickSmallest` returns: nothing on an empty list, otherwise the
first boundary of minimal absolute area. -/
theorem pickSmallest_spec (l : List Boundary) :
    (l = [] ∧ pickSmallest l = none) ∨
    ∃ b l1 l2, pickSmallest l = some b ∧ l = l1 ++ b :: l2 ∧
      (∀ d ∈ l, |b.area| ≤ |d.area|) ∧ ∀ d ∈ l1, |b.area| < |d.area| := by
  cases l with
  | nil => exact Or.inl ⟨rfl, rfl⟩
  | cons c rest =>
    obtain ⟨b, l1, l2, hfold, hdecomp, hmin, hstrict⟩ :=
      pickSmallest_loop (l := rest) c
    exact Or.inr ⟨b, l1, l2, by simpa [pickSmallest] using hfold, hdecomp,
      hmin, hstrict⟩

/-- Splitting a filtered list around an element recovers a matching split of
the original list. -/
theorem filter_decomp {p : Boundary → Bool} :
    ∀ {l l1 l2 : List Boundary} {b : Boundary},
      l.filter p = l1 ++ b :: l2 →
      ∃ m1 m2, l = m1 ++ b :: m2 ∧ m1.filter p = l1 ∧ m2.filter p = l2 := by
  intro l
  induction l with
  | nil =>
    intro l1 l2 b h
    simp at h
  | cons a l ih =>
    intro l1 l2 b h
    cases hpa : p a with
    | true =>
      rw [List.filter_cons] at h
      simp only [hpa, if_true] at h
      cases l1 with
      | nil =>
        obtain ⟨hb, hl⟩ : a = b ∧ l.filter p = l2 := by simpa using h
        refine ⟨[], l, by simp [hb], by simp, hl⟩
      | cons c l1t =>
        obtain ⟨hc, hrest⟩ : a = c ∧ l.filter p = l1t ++ b :: l2 := by
          simpa using h
        obtain ⟨m1, m2, hl, hf1, hf2⟩ := ih hrest
        refine ⟨a :: m1, m2, by simp [hl], ?_, hf2⟩
        rw [List.filter_cons]
        simp only [hpa, if_true]
        rw [hf1, hc]
    | false =>
      rw [List.filter_cons] at h
      simp only [hpa, Bool.false_eq_true, if_false] at h
      obtain ⟨m1, m2, hl, hf1, hf2⟩ := ih h
      refine ⟨a :: m1, m2, by simp [hl], ?_, hf2⟩
      rw [List.filter_cons]
      simp only [hpa, Bool.false_eq_true, if_false]
      exact hf1

/-- On a well-formed index, bounding-box pruning is transparent: filtering
the candidates by exact containment filters the whole boundary list. -/
theorem filter_candidates_eq {idx : GeoIndex} {p : GeoPoint}
    (h : WellFormed idx) :
    (idx.candidates p).filter (fun b => b.containsPoint p) =
      idx.boundaries.filter (fun b => b.containsPoint p) := by
  unfold GeoIndex.candidates
  rw [List.filter_filter]
  apply List.filter_congr
  intro b hb
  cases hc : b.containsPoint p with
  | false => simp [hc]
  | true => simp [hc, containsPoint_mem_bbox (h b hb) hc]

/-- C8: among the boundaries that truly contain the query point (exact
containment with hole subtraction), `find` returns the reference of the one
with the smallest absolute area, insertion order breaking exact ties; it
returns `none` exactly when no boundary contains the point. -/
theorem find_selects_most_specific (idx : GeoIndex) (lat lon : ℚ)
    (h : WellFormed idx) :
    (idx.find lat lon = none →
      ∀ b ∈ idx.boundaries, b.containsPoint ⟨lat, lon⟩ = false) ∧
    ∀ r, idx.find lat lon = some r →
      ∃ b, IsMostSpecific idx ⟨lat, lon⟩ b ∧ b.reference = r := by
  have hfind : idx.find lat lon =
      (pickSmallest (idx.boundaries.filter
        (fun b => b.containsPoint ⟨lat, lon⟩))).map Boundary.reference := by
    show (pickSmallest ((idx.candidates ⟨lat, lon⟩).filter
      (fun b => b.containsPoint ⟨lat, lon⟩))).map Boundary.reference = _
    rw [filter_candidates_eq h]
  rcases pickSmallest_spec
      (idx.boundaries.filter (fun b => b.containsPoint ⟨lat, lon⟩)) with
    ⟨hnil, hnone⟩ | ⟨b, l1, l2, hsome, hdecomp, hmin, hstrict⟩
  · constructor
    · intro _ b hb
      have hall := List.filter_eq_nil_iff.mp hnil b hb
      cases hcb : b.containsPoint ⟨lat, lon⟩ with
      | false => rfl
      | true => exact absurd hcb hall
    · intro r hr
      rw [hfind, hnone] at hr
      simp at hr
  · constructor
    · intro hnone
      rw [hfind, hsome] at hnone
      simp at hnone
    · intro r hr
      rw [hfind, hsome] at hr
      have hbr : b.reference = r := by simpa using hr
      obtain ⟨m1, m2, hl, hf1, hf2⟩ := filter_decomp hdecomp
      refine ⟨b, ⟨?_, ?_, m1, m2, hl, ?_⟩, hbr⟩
      · have hbmem : b ∈ idx.boundaries.filter
            (fun c => c.containsPoint ⟨lat, lon⟩) := by
          rw [hdecomp]
          exact List.mem_append_right _ (List.mem_cons_self _ _)
        exact (List.mem_filter.mp hbmem).2
      · intro c hc hcc
        exact hmin c (List.mem_filter.mpr ⟨hc, hcc⟩)
      · intro c hc hcc
        have hcf : c ∈ m1.filter (fun d => d.containsPoint ⟨lat, lon⟩) :=
          List.mem_filter.mpr ⟨hc, hcc⟩
        rw [hf1] at hcf
        exact hstrict c hcf

/- ### The WebSocket handler theorems -/

/-- The two response shapes a successfully parsed query can produce. -/
theorem queryResponse_invariant (idx : GeoIndex) (q : QueryParams) :
    (queryResponse idx q).data.isSome = (queryResponse idx q).success ∧
    (queryResponse idx q).error.isSome = !(queryResponse idx q).success := by
  unfold queryResponse
  cases idx.find q.latitude q.longitude <;> simp

/-- Packaging the exclusivity consequence of the two field equations. -/
theorem response_excl_of (r : Response) (h1 : r.data.isSome = r.success)
    (h2 : r.error.isSome = !r.success) :
    r.data.isSome = r.success ∧ r.error.isSome = !r.success ∧
      ¬(r.data.isSome = true ∧ r.error.isSome = true) := by
  refine ⟨h1, h2, ?_⟩
  rintro ⟨hd, he⟩
  rw [h1] at hd
  rw [h2, hd] at he
  exact absurd he (by decide)

/-- C1: a well-formed query message is answered by exactly the match
response (success, data.wikipedia, no error) when `find` returns a result,
and by exactly the no-address response (failure, error, no data) when it
returns nothing; that response is what the handler hands to the sink. -/
theorem ws_query_response_shape (idx : GeoIndex)
    (parse : String → Except String QueryParams) (sendOk : Nat → Bool)
    (t : String) (q : QueryParams) (rest : List StreamItem) (n : Nat)
    (h : parse t = Except.ok q) :
    (∀ w, idx.find q.latitude q.longitude = some w →
      queryResponse idx q = ⟨true, some ⟨w⟩, none⟩) ∧
    (idx.find q.latitude q.longitude = none →
      queryResponse idx q = ⟨false, none, some "No address found"⟩) ∧
    ∃ tail term,
      runHandler idx parse sendOk (.ok (.text t) :: rest) n =
        ((queryResponse idx q, sendOk n) :: tail, term) := by
  refine ⟨?_, ?_, ?_⟩
  · intro w hw
    unfold queryResponse
    rw [hw]
  · intro hw
    unfold queryResponse
    rw [hw]
  · cases hs : sendOk n with
    | true =>
      exact ⟨(runHandler idx parse sendOk rest (n + 1)).1,
        (runHandler idx parse sendOk rest (n + 1)).2, by simp [runHandler, h, hs]⟩
    | false =>
      exact ⟨[], .sendFailed, by simp [runHandler, h, hs]⟩

/-- C2: a text message that fails to parse is answered with exactly the
invalid-query response, whose error string extends the prefix
"Invalid query format: "; the loop then continues with the rest of the
stream whether or not that send succeeded, so the connection stays usable
and the query path neither panics nor terminates on such input. -/
theorem ws_invalid_query_response (idx : GeoIndex)
    (parse : String → Except String QueryParams) (sendOk : Nat → Bool)
    (t e : String) (rest : List StreamItem) (n : Nat)
    (h : parse t = Except.error e) :
    invalidQueryResponse e =
      ⟨false, none, some ("Invalid query format: " ++ e)⟩ ∧
    (∃ rem, (invalidQueryResponse e).error =
      some ("Invalid query format: " ++ rem)) ∧
    runHandler idx parse sendOk (.ok (.text t) :: rest) n =
      ((invalidQueryResponse e, sendOk n) ::
          (runHandler idx parse sendOk rest (n + 1)).1,
        (runHandler idx parse sendOk rest (n + 1)).2) := by
  refine ⟨rfl, ⟨e, rfl⟩, ?_⟩
  simp [runHandler, h]

/-- C7: every response the handler hands to the sink satisfies the
exclusivity invariant — the data field is present exactly when success is
true, the error field exactly when success is false, and never both. -/
theorem ws_response_exclusivity (idx : GeoIndex)
    (parse : String → Except String QueryParams) (sendOk : Nat → Bool) :
    ∀ (items : List StreamItem) (n : Nat) (r : Response) (ok : Bool),
      (r, ok) ∈ (runHandler idx parse sendOk items n).1 →
      r.data.isSome = r.success ∧ r.error.isSome = !r.success ∧
        ¬(r.data.isSome = true ∧ r.error.isSome = true) := by
  intro items
  induction items with
  | nil =>
    intro n r ok hmem
    simp [runHandler] at hmem
  | cons it rest ih =>
    intro n r ok hmem
    cases it with
    | err => simp [runHandler] at hmem
    | ok m =>
      cases m with
      | other => exact ih n r ok hmem
      | text t =>
        cases hp : parse t with
        | ok q =>
          cases hs : sendOk n with
          | true =>
            simp only [runHandler, hp, hs] at hmem
            rcases List.mem_cons.mp hmem with heq | hmem
            · have hr : r = queryResponse idx q := by
                have := congrArg Prod.fst heq
                simpa using this
              rw [hr]
              obtain ⟨h1, h2⟩ := queryResponse_invariant idx q
              exact response_excl_of _ h1 h2
            · exact ih (n + 1) r ok hmem
          | false =>
            simp only [runHandler, hp, hs] at hmem
            rcases List.mem_cons.mp hmem with heq | hmem
            · have hr : r = queryResponse idx q := by
                have := congrArg Prod.fst heq
                simpa using this
              rw [hr]
              obtain ⟨h1, h2⟩ := queryResponse_invariant idx q
              exact response_excl_of _ h1 h2
            · simp at hmem
        | error e =>
          simp only [runHandler, hp] at hmem
          rcases List.mem_cons.mp hmem with heq | hmem
          · have hr : r = invalidQueryResponse e := by
              have := congrArg Prod.fst heq
              simpa using this
            rw [hr]
            exact response_excl_of _ (by simp [invalidQueryResponse])
              (by simp [invalidQueryResponse])
          · exact ih (n + 1) r ok hmem

/-- C10 (amended): a non-text frame produces no response and the loop goes
on unchanged; the loop stops with `sendFailed` only when the send of a
response to a successfully parsed query actually fails, with `streamErred`
only when the stream yielded an error, and when every send succeeds and the
stream never errs it stops only by reaching the end of the stream. -/
theorem ws_loop_termination (idx : GeoIndex)
    (parse : String → Except String QueryParams) (sendOk : Nat → Bool) :
    (∀ (rest : List StreamItem) (n : Nat),
      runHandler idx parse sendOk (.ok .other :: rest) n =
        runHandler idx parse sendOk rest n) ∧
    (∀ (items : List StreamItem) (n : Nat),
      (runHandler idx parse sendOk items n).2 = .sendFailed →
      ∃ q, (queryResponse idx q, false) ∈ (runHandler idx parse sendOk items n).1) ∧
    (∀ (items : List StreamItem) (n : Nat),
      (runHandler idx parse sendOk items n).2 = .streamErred →
      StreamItem.err ∈ items) ∧
    (∀ (items : List StreamItem) (n : Nat), (∀ k, sendOk k = true) →
      StreamItem.err ∉ items →
      (runHandler idx parse sendOk items n).2 = .streamEnded) := by
  refine ⟨fun rest n => rfl, ?_, ?_, ?_⟩
  · intro items
    induction items with
    | nil =>
      intro n hterm
      simp [runHandler] at hterm
    | cons it rest ih =>
      intro n hterm
      cases it with
      | err => simp [runHandler] at hterm
      | ok m =>
        cases m with
        | other => exact ih n hterm
        | text t =>
          cases hp : parse t with
          | ok q =>
            cases hs : sendOk n with
            | true =>
              simp only [runHandler, hp, hs] at hterm ⊢
              obtain ⟨q2, hq2⟩ := ih (n + 1) hterm
              exact ⟨q2, List.mem_cons_of_mem _ hq2⟩
            | false =>
              simp only [runHandler, hp, hs]
              exact ⟨q, List.mem_cons_self _ _⟩
          | error e =>
            simp only [runHandler, hp] at hterm ⊢
            obtain ⟨q2, hq2⟩ := ih (n + 1) hterm
            exact ⟨q2, List.mem_cons_of_mem _ hq2⟩
  · intro items
    induction items with
    | nil =>
      intro n hterm
      simp [runHandler] at hterm
    | cons it rest ih =>
      intro n hterm
      cases it with
      | err => exact List.mem_cons_self _ _
      | ok m =>
        cases m with
        | other => exact List.mem_cons_of_mem _ (ih n hterm)
        | text t =>
          cases hp : parse t with
          | ok q =>
            cases hs : sendOk n with
            | true =>
              simp only [runHandler, hp, hs] at hterm
              exact List.mem_cons_of_mem _ (ih (n + 1) hterm)
            | false =>
              simp [runHandler, hp, hs] at hterm
          | error e =>
            simp only [runHandler, hp] at hterm
            exact List.mem_cons_of_mem _ (ih (n + 1) hterm)
  · intro items
    induction items with
    | nil =>
      intro n _ _
      rfl
    | cons it rest ih =>
      intro n hsend herr
      cases it with
      | err => exact absurd (List.mem_cons_self _ _) herr
      | ok m =>
        have herr2 : StreamItem.err ∉ rest := fun hc =>
          herr (List.mem_cons_of_mem _ hc)
        cases m with
        | other => exact ih n hsend herr2
        | text t =>
          cases hp : parse t with
          | ok q =>
            simp only [runHandler, hp, hsend n]
            exact ih (n + 1) hsend herr2
          | error e =>
            simp only [runHandler, hp]
            exact ih (n + 1) hsend herr2

/-- C10, the claim as frozen, is false: with an index that never matches,
a parsed query produces a response with success = false, and a failure to
send that (non-success) response terminates the loop, leaving a later
stream item unprocessed even though the stream neither ended of its own nor
erred. -/
theorem ws_loop_termination_counterexample :
    runHandler emptyIndex demoParse (fun _ => false)
        [.ok (.text "good"), .ok (.text "good")] 0 =
      ([(⟨false, none, some "No address found"⟩, false)], .sendFailed) ∧
    ∀ pr ∈ (runHandler emptyIndex demoParse (fun _ => false)
        [.ok (.text "good"), .ok (.text "good")] 0).1,
      pr.1.success = false := by
  have h1 : runHandler emptyIndex demoParse (fun _ => false)
      [.ok (.text "good"), .ok (.text "good")] 0 =
      ([(⟨false, none, some "No address found"⟩, false)], .sendFailed) := rfl
  refine ⟨h1, ?_⟩
  intro pr hpr
  rw [h1] at hpr
  have hpr2 : pr = (⟨false, none, some "No address found"⟩, false) := by
    simpa using hpr
  rw [hpr2]

/- ### Purity of the query phase -/

/-- C6: a query hands the shared index back unchanged (no field of the
index is mutated), its result is the pure `find` of the incoming state, and
two callers hitting the shared index in either order each get the answer
they would get alone — no coordination is needed. -/
theorem find_frame_immutable (idx : GeoIndex) (lat1 lon1 lat2 lon2 : ℚ) :
    (idx.findSt lat1 lon1).2 = idx ∧
    (idx.findSt lat1 lon1).1 = idx.find lat1 lon1 ∧
    (((idx.findSt lat1 lon1).2).findSt lat2 lon2).1 =
      (idx.findSt lat2 lon2).1 ∧
    (((idx.findSt lat2 lon2).2).findSt lat1 lon1).1 =
      (idx.findSt lat1 lon1).1 := by
  exact ⟨rfl, rfl, rfl, rfl⟩

/-- C9: `find` is deterministic — a second call with the same point on the
state handed back by a first call returns the same result. -/
theorem find_deterministic (idx : GeoIndex) (lat lon : ℚ) :
    (((idx.findSt lat lon).2).findSt lat lon).1 = (idx.findSt lat lon).1 ∧
    idx.find lat lon = idx.find lat lon :=
  ⟨rfl, rfl⟩

/- ### Startup and cache theorems -/

/-- C3 (amended): a cache path that cannot be opened is treated as a cache
miss — the index is rebuilt in full from the extract (and served, provided
the subsequent cache write succeeds) — but a cache file that opens and then
fails to decode (corrupt or version-mismatched) makes startup panic with
the decoding error instead of falling back to a rebuild. -/
theorem startup_cache_miss_vs_corrupt (pbfIndex : GeoIndex) (path : String)
    (openOk : String → Bool) (decodeCache : String → Except String GeoIndex)
    (writeOk : String → Bool) :
    (openOk path = false → writeOk path = true →
      startup pbfIndex (some path) openOk decodeCache writeOk =
        (.started pbfIndex, [.write path])) ∧
    ∀ e, openOk path = true → decodeCache path = Except.error e →
      startup pbfIndex (some path) openOk decodeCache writeOk =
        (.panicked e, []) := by
  constructor
  · intro hopen hwrite
    simp [startup, hopen, hwrite]
  · intro e hopen hdec
    simp [startup, hopen, hdec]

/-- C3, the claim as frozen, is false: a cache artifact that opens but is
structurally corrupt does not trigger a rebuild — `bincode::deserialize_from
(file).unwrap()` makes the process abort. -/
theorem startup_corrupt_cache_counterexample :
    startup emptyIndex (some "cache.bin") (fun _ => true)
        (fun _ => Except.error "corrupt cache") (fun _ => true) =
      (.panicked "corrupt cache", []) := rfl

/-- C4 (amended): after a successful rebuild from the extract, the cache
write is not best-effort — `std::fs::write(..).expect(..)` panics on
failure, so the built index is served only when the write succeeds, and a
write failure aborts startup with "Unable to write file". -/
theorem startup_write_failure_panics (pbfIndex : GeoIndex) (path : String)
    (openOk : String → Bool) (decodeCache : String → Except String GeoIndex)
    (writeOk : String → Bool) (hopen : openOk path = false) :
    (writeOk path = true →
      startup pbfIndex (some path) openOk decodeCache writeOk =
        (.started pbfIndex, [.write path])) ∧
    (writeOk path = false →
      startup pbfIndex (some path) openOk decodeCache writeOk =
        (.panicked "Unable to write file", [.write path])) := by
  constructor
  · intro hwrite
    simp [startup, hopen, hwrite]
  · intro hwrite
    simp [startup, hopen, hwrite]

/-- C4, the claim as frozen, is false: a failed cache write after a
successful in-memory build does not leave startup serving the built index —
it panics. -/
theorem startup_write_failure_counterexample :
    startup emptyIndex (some "cache.bin") (fun _ => false)
        (fun _ => Except.error "unused") (fun _ => false) =
      (.panicked "Unable to write file", [.write "cache.bin"]) := rfl

/-- C5 (amended): saving the cache is a single direct write of the encoded
index to the cache path itself — startup performs either no filesystem
operation on the cache, or exactly one direct write to the supplied path;
in particular no temporary file is written and no atomic rename publishes
the artifact. -/
theorem startup_cache_write_direct (pbfIndex : GeoIndex)
    (cache : Option String) (openOk : String → Bool)
    (decodeCache : String → Except String GeoIndex)
    (writeOk : String → Bool) :
    (startup pbfIndex cache openOk decodeCache writeOk).2 = [] ∨
    ∃ p, cache = some p ∧
      (startup pbfIndex cache openOk decodeCache writeOk).2 = [FsOp.write p] := by
  cases cache with
  | none => exact Or.inl rfl
  | some path =>
    cases hopen : openOk path with
    | true =>
      cases hdec : decodeCache path with
      | ok geo => exact Or.inl (by simp [startup, hopen, hdec])
      | error e => exact Or.inl (by simp [startup, hopen, hdec])
    | false =>
      cases hwrite : writeOk path with
      | true => exact Or.inr ⟨path, rfl, by simp [startup, hopen, hwrite]⟩
      | false => exact Or.inr ⟨path, rfl, by simp [startup, hopen, hwrite]⟩

/-- C5, the claim as frozen, is false: the filesystem trace of a rebuild is
one direct write to the cache path — not a write to a temporary location
followed by an atomic publish. -/
theorem startup_not_atomic_counterexample :
    (startup emptyIndex (some "cache.bin") (fun _ => false)
        (fun _ => Except.error "unused") (fun _ => true)).2 =
      [FsOp.write "cache.bin"] ∧
    ¬AtomicWriteDiscipline
      (startup emptyIndex (some "cache.bin") (fun _ => false)
        (fun _ => Except.error "unused") (fun _ => true)).2 "cache.bin" := by
  have h1 : (startup emptyIndex (some "cache.bin") (fun _ => false)
      (fun _ => Except.error "unused") (fun _ => true)).2 =
      [FsOp.write "cache.bin"] := rfl
  refine ⟨h1, ?_⟩
  rintro ⟨tmp, _, heq⟩
  rw [h1] at heq
  simp at heq

/- ### Closed corollaries at concrete inputs -/

/-- C1 at a concrete run: the demo parser accepts "good" and the handler
sends the exact response shapes. -/
theorem ws_query_response_shape_witness :
    demoParse "good" = Except.ok ⟨45, 42⟩ ∧
    ((∀ w, demoIndex.find 45 42 = some w →
        queryResponse demoIndex ⟨45, 42⟩ = ⟨true, some ⟨w⟩, none⟩) ∧
      (demoIndex.find 45 42 = none →
        queryResponse demoIndex ⟨45, 42⟩ =
          ⟨false, none, some "No address found"⟩) ∧
      ∃ tail term,
        runHandler demoIndex demoParse (fun _ => true)
            [.ok (.text "good")] 0 =
          ((queryResponse demoIndex ⟨45, 42⟩, true) :: tail, term)) :=
  ⟨rfl, ws_query_response_shape demoIndex demoParse (fun _ => true) "good"
    ⟨45, 42⟩ [] 0 rfl⟩

/-- C2 at a concrete run: the demo parser rejects "bad" and the handler
answers with the invalid-query response and keeps looping. -/
theorem ws_invalid_query_response_witness :
    demoParse "bad" = Except.error "missing field latitude" ∧
    (invalidQueryResponse "missing field latitude" =
      ⟨false, none,
        some ("Invalid query format: " ++ "missing field latitude")⟩ ∧
    (∃ rem, (invalidQueryResponse "missing field latitude").error =
      some ("Invalid query format: " ++ rem)) ∧
    runHandler emptyIndex demoParse (fun _ => true)
        [.ok (.text "bad")] 0 =
      ((invalidQueryResponse "missing field latitude", true) ::
          (runHandler emptyIndex demoParse (fun _ => true) [] 1).1,
        (runHandler emptyIndex demoParse (fun _ => true) [] 1).2)) :=
  ⟨rfl, ws_invalid_query_response emptyIndex demoParse (fun _ => true) "bad"
    "missing field latitude" [] 0 rfl⟩

/-- C7 at a concrete run: the no-address response sent for a missing point
satisfies the exclusivity invariant. -/
theorem ws_response_exclusivity_witness :
    ((⟨false, none, some "No address found"⟩, true) ∈
      (runHandler emptyIndex demoParse (fun _ => true)
        [.ok (.text "good")] 0).1) ∧
    ((⟨false, none, some "No address found"⟩ : Response).data.isSome =
        (⟨false, none, some "No address found"⟩ : Response).success ∧
      (⟨false, none, some "No address found"⟩ : Response).error.isSome =
        !(⟨false, none, some "No address found"⟩ : Response).success ∧
      ¬((⟨false, none, some "No address found"⟩ : Response).data.isSome =
          true ∧
        (⟨false, none, some "No address found"⟩ : Response).error.isSome =
          true)) := by
  have hmem : (⟨false, none, some "No address found"⟩, true) ∈
      (runHandler emptyIndex demoParse (fun _ => true)
        [.ok (.text "good")] 0).1 := by
    rw [show (runHandler emptyIndex demoParse (fun _ => true)
        [.ok (.text "good")] 0).1 =
      [(⟨false, none, some "No address found"⟩, true)] from rfl]
    exact List.mem_singleton.mpr rfl
  exact ⟨hmem, ws_response_exclusivity emptyIndex demoParse (fun _ => true)
    [.ok (.text "good")] 0 ⟨false, none, some "No address found"⟩ true hmem⟩

/-- C8 at the demo index: the index is well-formed and `find` selects the
most specific containing boundary. -/
theorem find_selects_most_specific_witness :
    WellFormed demoIndex ∧
    ((demoIndex.find 45 42 = none →
      ∀ b ∈ demoIndex.boundaries, b.containsPoint ⟨45, 42⟩ = false) ∧
    ∀ r, demoIndex.find 45 42 = some r →
      ∃ b, IsMostSpecific demoIndex ⟨45, 42⟩ b ∧ b.reference = r) :=
  ⟨by decide, find_selects_most_specific demoIndex 45 42 (by decide)⟩

/-- C3 (amended) at concrete functions: an unopenable cache with a
successful write leads to serving the rebuilt index. -/
theorem startup_cache_miss_witness :
    (fun _ : String => false) "cache.bin" = false ∧
    (fun _ : String => true) "cache.bin" = true ∧
    startup emptyIndex (some "cache.bin") (fun _ => false)
        (fun _ => Except.error "corrupt cache") (fun _ => true) =
      (.started emptyIndex, [.write "cache.bin"]) :=
  ⟨rfl, rfl,
    (startup_cache_miss_vs_corrupt emptyIndex "cache.bin" (fun _ => false)
      (fun _ => Except.error "corrupt cache") (fun _ => true)).1 rfl rfl⟩

/-- C4 (amended) at concrete functions: a failed cache write panics
startup. -/
theorem startup_write_failure_witness :
    (fun _ : String => false) "cache.bin" = false ∧
    startup emptyIndex (some "cache.bin") (fun _ => false)
        (fun _ => Except.error "unused") (fun _ => false) =
      (.panicked "Unable to write file", [.write "cache.bin"]) :=
  ⟨rfl,
    (startup_write_failure_panics emptyIndex "cache.bin" (fun _ => false)
      (fun _ => Except.error "unused") (fun _ => false) rfl).2 rfl⟩

/-- C10 (amended) at concrete runs: a non-text frame is skipped, and an
err-free stream with reliable sends ends by stream exhaustion. -/
theorem ws_loop_termination_witness :
    runHandler emptyIndex demoParse (fun _ => true) [.ok .other] 0 =
      runHandler emptyIndex demoParse (fun _ => true) [] 0 ∧
    (runHandler emptyIndex demoParse (fun _ => true)
        [.ok (.text "good"), .ok .other] 0).2 = .streamEnded :=
  ⟨(ws_loop_termination emptyIndex demoParse (fun _ => true)).1 [] 0,
    (ws_loop_termination emptyIndex demoParse (fun _ => true)).2.2.2
      [.ok (.text "good"), .ok .other] 0 (fun _ => rfl) (by decide)⟩
